import Mathlib

/-!
Verification of the cell-segmentation and edge-intensity pipeline of
`segment_intensity` (files `segment_intensity_batch.py` and
`segment_intensity_demo.py`).

The embedding works over exact rationals: a 2-D image is a shape
(rows, cols) together with a total intensity function, and a label map is
the same with natural-number labels (value 0 is background).  The scikit-image
primitives the pipeline calls (gaussian, local_minima, label, watershed) are
external library dependencies, not code of this repository; they are modelled
as a parameter structure `SkimagePrims` whose fields also carry the behaviour
their scikit-image documentation guarantees and that the pipeline relies on:
each returns an array of the documented shape, and `watershed` leaves every
pixel outside its boolean mask unlabelled (0).  All repository-level logic
(normalisation, threshold filtering via regionprops, sequential relabelling,
perimeter masking, mean computation) is translated directly from the source.
-/

/-- A 2-D real-valued array (numpy float64 array): a shape and a total
intensity function.  Only the values at coordinates `i < rows`, `j < cols`
are meaningful; numpy arrays have no values outside the grid. -/
structure Grid where
  rows : Nat
  cols : Nat
  pix : Nat → Nat → ℚ

/-- A 2-D integer label array (numpy int array): 0 is background, positive
values identify regions. -/
structure LMap where
  rows : Nat
  cols : Nat
  lab : Nat → Nat → Nat

/-- A 2-D boolean array, such as the validity mask `image > 0` passed to
watershed. -/
structure BMap where
  rows : Nat
  cols : Nat
  val : Nat → Nat → Bool

/-- The coordinates of an `r × c` array in row-major order, the order in
which numpy flattens a boolean-mask selection. -/
def coordList (r c : Nat) : List (Nat × Nat) :=
  (List.range r).flatMap fun i => (List.range c).map fun j => (i, j)

theorem mem_coordList {r c : Nat} {p : Nat × Nat} :
    p ∈ coordList r c ↔ p.1 < r ∧ p.2 < c := by
  cases p with
  | mk i j =>
    simp only [coordList, List.mem_flatMap, List.mem_map, List.mem_range,
      Prod.mk.injEq]
    constructor
    · rintro ⟨a, ha, b, hb, hi, hj⟩
      exact ⟨hi ▸ ha, hj ▸ hb⟩
    · rintro ⟨hi, hj⟩
      exact ⟨i, hi, j, hj, rfl, rfl⟩

/-- The largest label value occurring inside the grid of a label map. -/
def maxLabel (L : LMap) : Nat :=
  ((coordList L.rows L.cols).map fun p => L.lab p.1 p.2).foldr max 0

theorem le_foldr_max {l : List Nat} {a : Nat} (h : a ∈ l) :
    a ≤ l.foldr max 0 := by
  induction l with
  | nil => cases h
  | cons x xs ih =>
    rcases List.mem_cons.mp h with h1 | h2
    · exact h1 ▸ le_max_left x (xs.foldr max 0)
    · exact le_trans (ih h2) (le_max_right x (xs.foldr max 0))

theorem lab_le_maxLabel {L : LMap} {p : Nat × Nat}
    (h : p ∈ coordList L.rows L.cols) : L.lab p.1 p.2 ≤ maxLabel L :=
  le_foldr_max (List.mem_map.mpr ⟨p, h, rfl⟩)

/-- The distinct positive label values occurring in a label map, in ascending
order.  This is both the set of regions `skimage.measure.regionprops`
enumerates (it visits positive labels in ascending order) and the order in
which `skimage.segmentation.relabel_sequential` assigns the new labels
1, 2, ... . -/
def sortedPosLabels (L : LMap) : List Nat :=
  (List.range (maxLabel L + 1)).filter fun v =>
    decide (0 < v) && (coordList L.rows L.cols).any fun p => L.lab p.1 p.2 == v

theorem mem_sortedPosLabels {L : LMap} {v : Nat} :
    v ∈ sortedPosLabels L ↔
      0 < v ∧ ∃ p ∈ coordList L.rows L.cols, L.lab p.1 p.2 = v := by
  simp only [sortedPosLabels, List.mem_filter, List.mem_range,
    Bool.and_eq_true, decide_eq_true_eq, List.any_eq_true, beq_iff_eq]
  constructor
  · rintro ⟨-, hv, p, hp, hval⟩
    exact ⟨hv, p, hp, hval⟩
  · rintro ⟨hv, p, hp, hval⟩
    exact ⟨Nat.lt_succ_of_le (hval ▸ lab_le_maxLabel hp), hv, p, hp, hval⟩

theorem sortedPosLabels_nodup (L : LMap) : (sortedPosLabels L).Nodup :=
  (List.nodup_range _).filter _

/-- The coordinates of the region carrying label `v`, in row-major order:
`region.coords` of skimage regionprops. -/
def regionCoords (L : LMap) (v : Nat) : List (Nat × Nat) :=
  (coordList L.rows L.cols).filter fun p => L.lab p.1 p.2 == v

theorem mem_regionCoords {L : LMap} {v : Nat} {p : Nat × Nat} :
    p ∈ regionCoords L v ↔ p ∈ coordList L.rows L.cols ∧ L.lab p.1 p.2 = v := by
  simp [regionCoords]

/-- The mean intensity of the region of `L` carrying label `v` under the
intensity image `intensity`: `region.mean_intensity` of skimage regionprops
with `intensity_image = intensity`. -/
def mean_intensity (L : LMap) (v : Nat) (intensity : Grid) : ℚ :=
  ((regionCoords L v).map fun p => intensity.pix p.1 p.2).sum
    / ((regionCoords L v).length : ℚ)

/-- Embeds `skimage.segmentation.relabel_sequential` with its default
`offset = 1`: the distinct positive labels, taken in ascending order, are
renumbered 1, 2, ..., K (the value at a pixel becomes one plus the rank of
its old label among the occurring positive labels); background 0 stays 0. -/
def relabel_sequential (L : LMap) : LMap :=
  ⟨L.rows, L.cols, fun i j =>
    if 0 < L.lab i j then (sortedPosLabels L).indexOf (L.lab i j) + 1 else 0⟩

/-- Embeds the threshold-filter loop shared by both versions of
`cell_segmentation`:

    labels = np.zeros_like(outlines, dtype=np.int32)
    for region in regionprops(outlines, intensity_image=intensity):
        if region.mean_intensity > threshold:
            labels[outlines == region.label] = region.label

Pointwise: a pixel keeps its (positive) watershed label exactly when the mean
intensity of its region under `intensity` strictly exceeds `threshold`;
every other pixel is 0. -/
def threshold_filter (outlines : LMap) (intensity : Grid) (threshold : ℚ) :
    LMap :=
  ⟨outlines.rows, outlines.cols, fun i j =>
    if 0 < outlines.lab i j ∧
        threshold < mean_intensity outlines (outlines.lab i j) intensity then
      outlines.lab i j
    else 0⟩

/-- The scikit-image primitives the pipeline calls.  They are external
library dependencies (not code of this repository), so they are parameters
of the embedding; the propositional fields record the slice of their
documented behaviour the pipeline relies on: `gaussian` returns an array of
the input's shape, `watershed` returns an array shaped like its elevation
image, and watershed's `mask` argument guarantees that only points at which
the mask is true are labelled - every other point stays 0. -/
structure SkimagePrims where
  gaussian : Grid → ℚ → Grid
  local_minima : Grid → BMap
  label : BMap → LMap
  watershed : Grid → LMap → BMap → LMap
  gaussian_rows : ∀ g s, (gaussian g s).rows = g.rows
  gaussian_cols : ∀ g s, (gaussian g s).cols = g.cols
  watershed_rows : ∀ g seeds mask, (watershed g seeds mask).rows = g.rows
  watershed_cols : ∀ g seeds mask, (watershed g seeds mask).cols = g.cols
  watershed_mask : ∀ g seeds mask i j,
    mask.val i j = false → (watershed g seeds mask).lab i j = 0

/-- The watershed stage of `cell_segmentation` in
`segment_intensity_batch.py` (lines 48-64): two gaussian passes over the
raw image, seeds from the labelled local minima of the spot-blurred image,
and a watershed of the outline-blurred image restricted to the mask
`image > 0`.  The source computes the outline sigma as
`outline_sigma if outline_sigma != spot_sigma else spot_sigma`, kept
verbatim here. -/
def batch_outlines (P : SkimagePrims) (image : Grid)
    (spot_sigma outline_sigma : ℚ) : LMap :=
  let spot_blurred := P.gaussian image spot_sigma
  let outline_blurred :=
    P.gaussian image
      (if outline_sigma ≠ spot_sigma then outline_sigma else spot_sigma)
  let spots := P.label (P.local_minima spot_blurred)
  P.watershed outline_blurred spots
    ⟨image.rows, image.cols, fun i j => decide (0 < image.pix i j)⟩

/-- The `cell_segmentation` of `segment_intensity_batch.py`: watershed
stage, then the threshold filter with the raw image as the intensity image
(this version has no normalisation step), then `relabel_sequential`.  With
the primitives total, no exception is raised, so the model is the value the
source returns on completion. -/
def cell_segmentation (P : SkimagePrims) (image : Grid)
    (spot_sigma outline_sigma threshold : ℚ) : LMap :=
  relabel_sequential
    (threshold_filter (batch_outlines P image spot_sigma outline_sigma)
      image threshold)

/-- The minimum of a nonempty numpy array (`arr.min()`); 0 on the empty
array, where numpy raises instead - callers model that branch themselves. -/
def gridMin (g : Grid) : ℚ :=
  match (coordList g.rows g.cols).map fun p => g.pix p.1 p.2 with
  | [] => 0
  | x :: xs => xs.foldl min x

/-- The maximum of a nonempty numpy array (`arr.max()`); 0 on the empty
array, as for `gridMin`. -/
def gridMax (g : Grid) : ℚ :=
  match (coordList g.rows g.cols).map fun p => g.pix p.1 p.2 with
  | [] => 0
  | x :: xs => xs.foldl max x

/-- The normalisation step of `cell_segmentation` in
`segment_intensity_demo.py` (line 72):

    normalized_image = (original_image - original_image.min())
                         / (original_image.max() - original_image.min())

On a flat image numpy evaluates 0.0 / 0.0 to NaN (with only a
RuntimeWarning); over ℚ the same division yields 0.  Both NaN and 0 fail
every strict comparison the pipeline later applies to the normalised values
(the watershed mask `normalized_image > 0` and the threshold comparison),
so the two readings are observationally equal for the pipeline. -/
def demo_normalized (image : Grid) : Grid :=
  ⟨image.rows, image.cols, fun i j =>
    (image.pix i j - gridMin image) / (gridMax image - gridMin image)⟩

/-- The watershed stage of `cell_segmentation` in
`segment_intensity_demo.py` (lines 85-111): as in the batch version but
over the normalised image, with the mask `normalized_image > 0`. -/
def demo_outlines (P : SkimagePrims) (image : Grid)
    (spot_sigma outline_sigma : ℚ) : LMap :=
  let normalized := demo_normalized image
  let spot_blurred := P.gaussian normalized spot_sigma
  let outline_blurred :=
    P.gaussian normalized
      (if outline_sigma ≠ spot_sigma then outline_sigma else spot_sigma)
  let spots := P.label (P.local_minima spot_blurred)
  P.watershed outline_blurred spots
    ⟨normalized.rows, normalized.cols, fun i j =>
      decide (0 < normalized.pix i j)⟩

/-- The threshold filter of the demo version (lines 125-131), which takes
its region mean intensities under the normalised image. -/
def demo_filtered_labels (P : SkimagePrims) (image : Grid)
    (spot_sigma outline_sigma threshold : ℚ) : LMap :=
  threshold_filter (demo_outlines P image spot_sigma outline_sigma)
    (demo_normalized image) threshold

/-- The error that actually escapes `cell_segmentation` when an exception is
swallowed before `filtered_labels` is assigned: the bare `except` only logs,
and the subsequent `return filtered_labels, ...` then raises
UnboundLocalError.  No typed error (DegenerateInputError, NoRegionsError,
SegmentationFailure) exists anywhere in the source. -/
inductive PyError where
  | unboundLocalError
deriving DecidableEq

/-- The `cell_segmentation` of `segment_intensity_demo.py` (lines 40-142),
as observed by its caller (of its five returned values this models
`filtered_labels`, the label map).

On an empty image, `original_image.min()` (line 67) raises ValueError,
the bare `except` logs it, and `return filtered_labels, ...` raises
UnboundLocalError: the caller sees an error.

On a nonempty image the pipeline runs to `filtered_labels` (line 131)
without any statement that can raise (numpy turns the degenerate 0/0
normalisation into NaN values with only a RuntimeWarning, see
`demo_normalized`).  The logging lines 134-136 do raise ValueError when
`intensities` is empty (min of an empty sequence), but that happens after
`filtered_labels` is assigned, and the bare `except` swallows it, so the
function still returns the computed label map as if it had succeeded. -/
def demo_cell_segmentation (P : SkimagePrims) (image : Grid)
    (spot_sigma outline_sigma threshold : ℚ) : Except PyError LMap :=
  if image.rows = 0 ∨ image.cols = 0 then
    Except.error PyError.unboundLocalError
  else
    Except.ok
      (relabel_sequential
        (demo_filtered_labels P image spot_sigma outline_sigma threshold))

/-- One pass of the perimeter-marking loop body of
`quantify_edge_intensity`: `perimeters[region.coords[:, 0],
region.coords[:, 1]] = 1` writes 1 at every coordinate of one region. -/
def setRegionOnes (g : Grid) (cs : List (Nat × Nat)) : Grid :=
  ⟨g.rows, g.cols, fun i j => if (i, j) ∈ cs then 1 else g.pix i j⟩

/-- The `perimeters` array of `quantify_edge_intensity` (both versions):
a float64 array of zeros shaped like `image`, then for each region of
`labels` (in the ascending label order regionprops uses) the region's
coordinates are overwritten with 1. -/
def perimetersOf (image : Grid) (labels : LMap) : Grid :=
  (sortedPosLabels labels).foldl
    (fun acc v => setRegionOnes acc (regionCoords labels v))
    ⟨image.rows, image.cols, fun _ _ => 0⟩

/-- The pixels selected by `image[perimeters > 0]`, in numpy's row-major
flattening order. -/
def edgeSelection (image : Grid) (labels : LMap) : List (Nat × Nat) :=
  (coordList image.rows image.cols).filter fun p =>
    decide (0 < (perimetersOf image labels).pix p.1 p.2)

/-- The `quantify_edge_intensity` of `segment_intensity_batch.py` (lines
93-106; the demo version differs only by an extra logging line): mark every
pixel of every labelled region in `perimeters`, then return
`np.mean(image[perimeters > 0])`.  On an empty selection `np.mean` returns
NaN (emitting only a RuntimeWarning, which the `try` does not catch), so
the function returns NaN rather than raising; `none` models that NaN. -/
def quantify_edge_intensity (image : Grid) (labels : LMap) : Option ℚ :=
  if (edgeSelection image labels).isEmpty then none
  else
    some
      (((edgeSelection image labels).map fun p => image.pix p.1 p.2).sum
        / ((edgeSelection image labels).length : ℚ))

/-- The positive value `v` occurs somewhere inside the grid of `L`. -/
def occursPos (L : LMap) (v : Nat) : Prop :=
  0 < v ∧ ∃ p ∈ coordList L.rows L.cols, L.lab p.1 p.2 = v

/-- The set of distinct positive label values occurring in a label map. -/
def posLabelSet (L : LMap) : Finset Nat :=
  (sortedPosLabels L).toFinset

/-- The number of distinct positive labels of a label map: the K of the
spec's dense range 1..K. -/
def numLabels (L : LMap) : Nat :=
  (sortedPosLabels L).length

theorem mem_posLabelSet {L : LMap} {v : Nat} :
    v ∈ posLabelSet L ↔ occursPos L v := by
  simp only [posLabelSet, List.mem_toFinset, mem_sortedPosLabels, occursPos]

theorem card_posLabelSet (L : LMap) : (posLabelSet L).card = numLabels L :=
  List.toFinset_card_of_nodup (sortedPosLabels_nodup L)

theorem occursPos_relabel_sequential (L : LMap) (v : Nat) :
    occursPos (relabel_sequential L) v ↔ 1 ≤ v ∧ v ≤ numLabels L := by
  constructor
  · rintro ⟨hv, p, hp, hval⟩
    simp only [relabel_sequential] at hp hval
    by_cases h : 0 < L.lab p.1 p.2
    · have hmem : L.lab p.1 p.2 ∈ sortedPosLabels L :=
        mem_sortedPosLabels.mpr ⟨h, p, hp, rfl⟩
      have hidx : (sortedPosLabels L).indexOf (L.lab p.1 p.2) <
          (sortedPosLabels L).length := List.indexOf_lt_length.mpr hmem
      rw [if_pos h] at hval
      exact ⟨by omega, by simpa [numLabels] using by omega⟩
    · rw [if_neg h] at hval
      omega
  · rintro ⟨h1, h2⟩
    have hlt : v - 1 < (sortedPosLabels L).length := by
      simp only [numLabels] at h2
      omega
    have hmem : (sortedPosLabels L).get ⟨v - 1, hlt⟩ ∈ sortedPosLabels L :=
      List.get_mem _ _ _
    obtain ⟨hpos, p, hp, hval⟩ := mem_sortedPosLabels.mp hmem
    refine ⟨by omega, p, ?_, ?_⟩
    · simpa [relabel_sequential] using hp
    · have hidx := List.get_indexOf (sortedPosLabels_nodup L) ⟨v - 1, hlt⟩
      simp only [relabel_sequential]
      rw [if_pos (hval ▸ hpos), hval, hidx]
      show v - 1 + 1 = v
      omega

theorem numLabels_relabel_sequential (L : LMap) :
    numLabels (relabel_sequential L) = numLabels L := by
  have h : posLabelSet (relabel_sequential L) = Finset.Icc 1 (numLabels L) := by
    ext v
    rw [mem_posLabelSet, occursPos_relabel_sequential, Finset.mem_Icc]
  have hcard := card_posLabelSet (relabel_sequential L)
  rw [h, Nat.card_Icc] at hcard
  omega

theorem mem_posLabelSet_threshold_filter {O : LMap} {g : Grid} {t : ℚ}
    {v : Nat} :
    v ∈ posLabelSet (threshold_filter O g t) ↔
      v ∈ posLabelSet O ∧ t < mean_intensity O v g := by
  simp only [mem_posLabelSet, occursPos, threshold_filter]
  constructor
  · rintro ⟨hv, p, hp, hval⟩
    by_cases h : 0 < O.lab p.1 p.2 ∧
        t < mean_intensity O (O.lab p.1 p.2) g
    · rw [if_pos h] at hval
      exact ⟨⟨hv, p, hp, hval⟩, hval ▸ h.2⟩
    · rw [if_neg h] at hval
      omega
  · rintro ⟨⟨hv, p, hp, hval⟩, hmean⟩
    refine ⟨hv, p, hp, ?_⟩
    rw [if_pos ⟨hval ▸ hv, hval ▸ hmean⟩]
    exact hval

theorem posLabelSet_threshold_filter_mono {O : LMap} {g : Grid} {t t' : ℚ}
    (h : t' ≤ t) :
    posLabelSet (threshold_filter O g t) ⊆
      posLabelSet (threshold_filter O g t') := by
  intro v hv
  rw [mem_posLabelSet_threshold_filter] at hv ⊢
  exact ⟨hv.1, lt_of_le_of_lt h hv.2⟩

theorem numLabels_threshold_filter_mono {O : LMap} {g : Grid} {t t' : ℚ}
    (h : t' ≤ t) :
    numLabels (threshold_filter O g t) ≤
      numLabels (threshold_filter O g t') := by
  rw [← card_posLabelSet, ← card_posLabelSet]
  exact Finset.card_le_card (posLabelSet_threshold_filter_mono h)

theorem foldl_setRegionOnes_pix (labels : LMap) (l : List Nat) (g : Grid)
    (i j : Nat) :
    (l.foldl (fun acc v => setRegionOnes acc (regionCoords labels v)) g).pix
        i j =
      if ∃ v ∈ l, (i, j) ∈ regionCoords labels v then 1 else g.pix i j := by
  induction l generalizing g with
  | nil => simp
  | cons x xs ih =>
    rw [List.foldl_cons, ih]
    by_cases h2 : ∃ v ∈ xs, (i, j) ∈ regionCoords labels v
    · rw [if_pos h2, if_pos ⟨h2.choose, List.mem_cons_of_mem x h2.choose_spec.1,
        h2.choose_spec.2⟩]
    · rw [if_neg h2]
      simp only [setRegionOnes]
      by_cases hx : (i, j) ∈ regionCoords labels x
      · rw [if_pos hx, if_pos ⟨x, List.mem_cons_self x xs, hx⟩]
      · rw [if_neg hx, if_neg]
        rintro ⟨v, hv, hmem⟩
        rcases List.mem_cons.mp hv with rfl | hv2
        · exact hx hmem
        · exact h2 ⟨v, hv2, hmem⟩

theorem perimetersOf_pix_pos (image : Grid) (labels : LMap) (i j : Nat) :
    0 < (perimetersOf image labels).pix i j ↔
      ((i, j) ∈ coordList labels.rows labels.cols ∧ 0 < labels.lab i j) := by
  rw [perimetersOf, foldl_setRegionOnes_pix]
  constructor
  · intro h
    by_cases hex : ∃ v ∈ sortedPosLabels labels, (i, j) ∈ regionCoords labels v
    · obtain ⟨v, hv, hmem⟩ := hex
      obtain ⟨hcoord, heq⟩ := mem_regionCoords.mp hmem
      exact ⟨hcoord, heq ▸ (mem_sortedPosLabels.mp hv).1⟩
    · rw [if_neg hex] at h
      exact absurd h (by norm_num)
  · rintro ⟨hc, hl⟩
    rw [if_pos ⟨labels.lab i j,
      mem_sortedPosLabels.mpr ⟨hl, (i, j), hc, rfl⟩,
      mem_regionCoords.mpr ⟨hc, rfl⟩⟩]
    norm_num

theorem edgeSelection_eq_positive_support (image : Grid) (labels : LMap)
    (hr : labels.rows = image.rows) (hc : labels.cols = image.cols) :
    edgeSelection image labels =
      (coordList image.rows image.cols).filter fun p =>
        decide (0 < labels.lab p.1 p.2) := by
  unfold edgeSelection
  apply List.filter_congr
  intro p hp
  rw [decide_eq_decide, perimetersOf_pix_pos]
  constructor
  · exact fun h => h.2
  · intro h
    refine ⟨?_, h⟩
    rw [hr, hc]
    exact hp

/-- A concrete instance of the scikit-image contracts, used to evaluate the
pipeline on concrete inputs: identity smoothing, every pixel a local
minimum, one seed label over the true pixels, and a watershed that assigns
each masked pixel its seed label and leaves unmasked pixels at 0.  Every
contract field holds. -/
def simplePrims : SkimagePrims where
  gaussian := fun g _ => g
  local_minima := fun g => ⟨g.rows, g.cols, fun _ _ => true⟩
  label := fun b => ⟨b.rows, b.cols, fun i j => if b.val i j then 1 else 0⟩
  watershed := fun g seeds mask =>
    ⟨g.rows, g.cols, fun i j => if mask.val i j then seeds.lab i j else 0⟩
  gaussian_rows := fun _ _ => rfl
  gaussian_cols := fun _ _ => rfl
  watershed_rows := fun _ _ _ => rfl
  watershed_cols := fun _ _ _ => rfl
  watershed_mask := fun _ _ _ i j h => by simp [h]

/-- A concrete 2 × 2 image with intensities 1, 2, 3, 4. -/
def imgA : Grid := ⟨2, 2, fun i j => ((2 * i + j + 1 : Nat) : ℚ)⟩

/-- A concrete 2 × 2 label map whose single region (label 2) is the bottom
row. -/
def labA : LMap := ⟨2, 2, fun i _ => if i = 1 then 2 else 0⟩

/-- A concrete 2 × 2 label map: label 1 at (0,0), label 2 at (1,1). -/
def labB1 : LMap := ⟨2, 2, fun i j => if i = j then i + 1 else 0⟩

/-- A concrete 2 × 2 label map with the same positive support as `labB1`
but a different labelling (label 7 on the whole diagonal). -/
def labB2 : LMap := ⟨2, 2, fun i j => if i = j then 7 else 0⟩

/-- A concrete all-background 2 × 2 label map. -/
def zeroL22 : LMap := ⟨2, 2, fun _ _ => 0⟩

/-- A concrete flat (zero dynamic range) 2 × 2 image. -/
def flat22 : Grid := ⟨2, 2, fun _ _ => 5⟩

/-- A concrete flat 3 × 3 image. -/
def flat33 : Grid := ⟨3, 3, fun _ _ => 7⟩

/-- True exactly when the demo segmentation returned a label map (no error
escaped) and that map is all-background inside its grid. -/
def exceptOkAllZero : Except PyError LMap → Bool
  | Except.ok L => (coordList L.rows L.cols).all fun p => L.lab p.1 p.2 == 0
  | Except.error _ => false

/-- True exactly when the demo segmentation surfaced an error. -/
def exceptIsErr : Except PyError LMap → Bool
  | Except.error _ => true
  | Except.ok _ => false

/-- Claim C1: for every image and label map of the same shape with at least
one positively labelled pixel, `quantify_edge_intensity` returns the
arithmetic mean of the image's intensity over exactly the set of pixels
carrying a positive label (whole region bodies, region membership rather
than traced boundary contours), and over no other pixels. -/
theorem quantify_mean_over_positive_support (image : Grid) (labels : LMap)
    (hr : labels.rows = image.rows) (hc : labels.cols = image.cols)
    (hpos : ∃ p ∈ coordList image.rows image.cols, 0 < labels.lab p.1 p.2) :
    quantify_edge_intensity image labels =
      some
        ((((coordList image.rows image.cols).filter fun p =>
              decide (0 < labels.lab p.1 p.2)).map fun p =>
            image.pix p.1 p.2).sum
          / (((coordList image.rows image.cols).filter fun p =>
              decide (0 < labels.lab p.1 p.2)).length : ℚ)) := by
  have hsel := edgeSelection_eq_positive_support image labels hr hc
  obtain ⟨p, hp, hlab⟩ := hpos
  have hmem : p ∈ (coordList image.rows image.cols).filter fun p =>
      decide (0 < labels.lab p.1 p.2) :=
    List.mem_filter.mpr ⟨hp, by simpa using hlab⟩
  unfold quantify_edge_intensity
  rw [hsel, if_neg]
  simp only [List.isEmpty_iff]
  exact List.ne_nil_of_mem hmem

/-- Witness for claim C1 at a concrete input: a 2 × 2 image with one
two-pixel region labelled on the bottom row. -/
theorem quantify_mean_over_positive_support_witness :
    (labA.rows = imgA.rows ∧ labA.cols = imgA.cols ∧
      ∃ p ∈ coordList imgA.rows imgA.cols, 0 < labA.lab p.1 p.2) ∧
    quantify_edge_intensity imgA labA =
      some
        ((((coordList imgA.rows imgA.cols).filter fun p =>
              decide (0 < labA.lab p.1 p.2)).map fun p =>
            imgA.pix p.1 p.2).sum
          / (((coordList imgA.rows imgA.cols).filter fun p =>
              decide (0 < labA.lab p.1 p.2)).length : ℚ)) :=
  ⟨⟨rfl, rfl, by decide⟩,
    quantify_mean_over_positive_support imgA labA rfl rfl (by decide)⟩

/-- Claim C2: on every input on which `cell_segmentation` completes, the
positive values occurring in the returned label map form exactly the
contiguous range 1..K for some K (no gaps), and every pixel of the grid
either carries background 0 or one of those labels. -/
theorem cell_segmentation_dense_labels (P : SkimagePrims) (image : Grid)
    (spot_sigma outline_sigma threshold : ℚ) :
    ∃ K,
      (∀ v,
        occursPos (cell_segmentation P image spot_sigma outline_sigma threshold)
            v ↔
          1 ≤ v ∧ v ≤ K) ∧
      ∀ p ∈ coordList
          (cell_segmentation P image spot_sigma outline_sigma threshold).rows
          (cell_segmentation P image spot_sigma outline_sigma threshold).cols,
        (cell_segmentation P image spot_sigma outline_sigma threshold).lab p.1
            p.2 = 0 ∨
          (1 ≤ (cell_segmentation P image spot_sigma outline_sigma
              threshold).lab p.1 p.2 ∧
            (cell_segmentation P image spot_sigma outline_sigma
              threshold).lab p.1 p.2 ≤ K) := by
  refine ⟨numLabels
    (threshold_filter (batch_outlines P image spot_sigma outline_sigma) image
      threshold), fun v => occursPos_relabel_sequential _ v, ?_⟩
  intro p hp
  by_cases h :
    0 < (cell_segmentation P image spot_sigma outline_sigma threshold).lab p.1
      p.2
  · exact Or.inr ((occursPos_relabel_sequential _ _).mp ⟨h, p, hp, rfl⟩)
  · exact Or.inl (by omega)

/-- Claim C3 (evaluation at the failing input): called with an
all-background label map, `quantify_edge_intensity` does not raise: the
selection `image[perimeters > 0]` is empty, `np.mean` of an empty slice
returns NaN with only a RuntimeWarning (which the `try` block does not
catch), and that NaN — modelled by `none` — is returned as the function's
value.  No `NoRegionsError` class exists anywhere in the source. -/
theorem quantify_all_background_returns_nan :
    quantify_edge_intensity imgA zeroL22 = none := by decide

/-- On a zero-dynamic-range image every normalised pixel fails every strict
comparison the pipeline applies to it.  (numpy turns the 0.0 / 0.0 into NaN
with only a RuntimeWarning; over ℚ the division yields 0; NaN and 0 alike
are not greater than 0 and not greater than any nonnegative threshold.) -/
theorem demo_normalized_flat {image : Grid}
    (h : gridMax image = gridMin image) :
    ∀ i j, (demo_normalized image).pix i j = 0 := by
  intro i j
  simp [demo_normalized, h, sub_self, div_zero]

theorem relabel_sequential_all_zero {L : LMap} (h : ∀ i j, L.lab i j = 0) :
    relabel_sequential L = ⟨L.rows, L.cols, fun _ _ => 0⟩ := by
  unfold relabel_sequential
  congr 1
  funext i j
  rw [h i j]
  simp

/-- On a nonempty flat image the demo segmentation returns, normally, an
all-background label map: the degenerate normalisation raises nothing, the
all-false watershed mask makes every label 0, and the ValueError the
logging lines raise on the empty region list is swallowed by the bare
except after `filtered_labels` is assigned. -/
theorem demo_cell_segmentation_flat {P : SkimagePrims} {image : Grid}
    (hflat : gridMax image = gridMin image)
    (hr : image.rows ≠ 0) (hc : image.cols ≠ 0)
    (spot_sigma outline_sigma threshold : ℚ) :
    demo_cell_segmentation P image spot_sigma outline_sigma threshold =
      Except.ok ⟨image.rows, image.cols, fun _ _ => 0⟩ := by
  have hnorm := demo_normalized_flat hflat
  have hout : ∀ i j,
      (demo_outlines P image spot_sigma outline_sigma).lab i j = 0 := by
    intro i j
    apply P.watershed_mask
    show decide (0 < (demo_normalized image).pix i j) = false
    rw [hnorm i j]
    rfl
  have hF : ∀ i j,
      (demo_filtered_labels P image spot_sigma outline_sigma
        threshold).lab i j = 0 := by
    intro i j
    simp only [demo_filtered_labels, threshold_filter]
    rw [hout i j]
    simp
  unfold demo_cell_segmentation
  rw [if_neg (by tauto)]
  refine congrArg Except.ok ?_
  rw [relabel_sequential_all_zero hF]
  congr 1
  · exact (P.watershed_rows _ _ _).trans (P.gaussian_rows _ _)
  · exact (P.watershed_cols _ _ _).trans (P.gaussian_cols _ _)

/-- Claim C4 (evaluation at the failing input): on a flat nonempty image
the demo `cell_segmentation` hits a numeric failure (the 0/0 normalisation
produces NaN, and the `min(intensities)` logging raises ValueError on the
empty region list) yet its caller receives a normally returned all-zero
label map, indistinguishable from a valid "no cells found" result. -/
theorem demo_segmentation_flat_image_silent_all_zero :
    demo_cell_segmentation simplePrims flat22 6 3 (1 / 50) =
      Except.ok ⟨flat22.rows, flat22.cols, fun _ _ => 0⟩ :=
  demo_cell_segmentation_flat (by rfl) (by decide) (by decide) 6 3 (1 / 50)

/-- Claim C6 (evaluation at the failing input): on a flat image (max
intensity equals min intensity) the demo `cell_segmentation` performs the
division-by-zero normalisation (numpy: 0.0 / 0.0 = NaN with only a
RuntimeWarning) and surfaces no error at all; no `DegenerateInputError`
class exists anywhere in the source. -/
theorem demo_segmentation_flat_image_no_degenerate_error :
    exceptIsErr
        (demo_cell_segmentation simplePrims flat33 6 3 (1 / 50)) = false := by
  rw [demo_cell_segmentation_flat (by rfl) (by decide) (by decide) 6 3
    (1 / 50)]
  rfl

/-- Claim C5: in the demo `cell_segmentation`, for every positive label the
watershed step produces, the region's mean intensity is taken under the
normalised image, the region is zeroed out exactly when that mean does not
strictly exceed `threshold`, and a region whose mean strictly exceeds the
threshold keeps all of its pixels, under one common positive relabelled
value. -/
theorem demo_threshold_semantics (P : SkimagePrims) (image : Grid)
    (spot_sigma outline_sigma threshold : ℚ)
    (hrows : image.rows ≠ 0) (hcols : image.cols ≠ 0) (v : Nat) (hv : 0 < v)
    (hocc : ∃ p ∈ coordList
        (demo_outlines P image spot_sigma outline_sigma).rows
        (demo_outlines P image spot_sigma outline_sigma).cols,
        (demo_outlines P image spot_sigma outline_sigma).lab p.1 p.2 = v) :
    ∃ L,
      demo_cell_segmentation P image spot_sigma outline_sigma threshold =
        Except.ok L ∧
      (threshold <
          mean_intensity (demo_outlines P image spot_sigma outline_sigma) v
            (demo_normalized image) →
        ∃ w, 0 < w ∧
          ∀ i j,
            (demo_outlines P image spot_sigma outline_sigma).lab i j = v →
            L.lab i j = w) ∧
      (¬ threshold <
          mean_intensity (demo_outlines P image spot_sigma outline_sigma) v
            (demo_normalized image) →
        ∀ i j,
          (demo_outlines P image spot_sigma outline_sigma).lab i j = v →
          L.lab i j = 0) := by
  refine ⟨relabel_sequential
    (demo_filtered_labels P image spot_sigma outline_sigma threshold),
    ?_, ?_, ?_⟩
  · unfold demo_cell_segmentation
    rw [if_neg (by tauto)]
  · intro hmean
    refine ⟨(sortedPosLabels
      (demo_filtered_labels P image spot_sigma outline_sigma
        threshold)).indexOf v + 1, Nat.succ_pos _, ?_⟩
    intro i j hij
    have hF : (demo_filtered_labels P image spot_sigma outline_sigma
        threshold).lab i j = v := by
      simp only [demo_filtered_labels, threshold_filter]
      rw [hij, if_pos ⟨hv, hmean⟩]
    simp only [relabel_sequential]
    rw [hF, if_pos hv]
  · intro hmean i j hij
    have hF : (demo_filtered_labels P image spot_sigma outline_sigma
        threshold).lab i j = 0 := by
      simp only [demo_filtered_labels, threshold_filter]
      rw [hij, if_neg (fun h => hmean h.2)]
    simp only [relabel_sequential]
    rw [hF]
    simp

/-- A concrete 1 × 2 image with intensities 0 and 1. -/
def imgD : Grid := ⟨1, 2, fun _ j => (j : ℚ)⟩

theorem gridMin_imgD : gridMin imgD = 0 := by
  have hcl : coordList 1 2 = [(0, 0), (0, 1)] := rfl
  simp only [gridMin, imgD, hcl, List.map_cons, List.map_nil,
    List.foldl_cons, List.foldl_nil]
  norm_num [min_def]

theorem gridMax_imgD : gridMax imgD = 1 := by
  have hcl : coordList 1 2 = [(0, 0), (0, 1)] := rfl
  simp only [gridMax, imgD, hcl, List.map_cons, List.map_nil,
    List.foldl_cons, List.foldl_nil]
  norm_num [max_def]

theorem demo_normalized_imgD : (demo_normalized imgD).pix 0 1 = 1 := by
  simp only [demo_normalized]
  rw [gridMin_imgD, gridMax_imgD]
  show (((1 : Nat) : ℚ) - 0) / (1 - 0) = 1
  norm_num

/-- With the `simplePrims` instance, the demo watershed stage labels a pixel
1 exactly when its normalised intensity is positive. -/
theorem demo_outlines_simplePrims_lab (image : Grid) (ss os : ℚ)
    (i j : Nat) :
    (demo_outlines simplePrims image ss os).lab i j =
      if 0 < (demo_normalized image).pix i j then 1 else 0 := by
  show (if decide (0 < (demo_normalized image).pix i j) = true then 1
      else 0) = _
  simp only [decide_eq_true_eq]

theorem imgD_outlines_occ :
    ∃ p ∈ coordList (demo_outlines simplePrims imgD 6 3).rows
        (demo_outlines simplePrims imgD 6 3).cols,
      (demo_outlines simplePrims imgD 6 3).lab p.1 p.2 = 1 := by
  refine ⟨(0, 1), by decide, ?_⟩
  rw [demo_outlines_simplePrims_lab, demo_normalized_imgD]
  norm_num

/-- Witness for claim C5 at a concrete input: a 1 × 2 image whose single
watershed region (label 1, the right pixel) is checked by the theorem. -/
theorem demo_threshold_semantics_witness :
    (imgD.rows ≠ 0 ∧ imgD.cols ≠ 0 ∧ 0 < 1 ∧
      ∃ p ∈ coordList (demo_outlines simplePrims imgD 6 3).rows
          (demo_outlines simplePrims imgD 6 3).cols,
        (demo_outlines simplePrims imgD 6 3).lab p.1 p.2 = 1) ∧
    ∃ L,
      demo_cell_segmentation simplePrims imgD 6 3 (1 / 50) =
        Except.ok L ∧
      ((1 : ℚ) / 50 <
          mean_intensity (demo_outlines simplePrims imgD 6 3) 1
            (demo_normalized imgD) →
        ∃ w, 0 < w ∧
          ∀ i j,
            (demo_outlines simplePrims imgD 6 3).lab i j = 1 →
            L.lab i j = w) ∧
      (¬ (1 : ℚ) / 50 <
          mean_intensity (demo_outlines simplePrims imgD 6 3) 1
            (demo_normalized imgD) →
        ∀ i j,
          (demo_outlines simplePrims imgD 6 3).lab i j = 1 →
          L.lab i j = 0) :=
  ⟨⟨by decide, by decide, by decide, imgD_outlines_occ⟩,
    demo_threshold_semantics simplePrims imgD 6 3 (1 / 50) (by decide)
      (by decide) 1 (by decide) imgD_outlines_occ⟩

/-- Claim C7: for a fixed image and sigmas, every region retained at
threshold t is also retained at any lower threshold t2, and the number of
distinct positive labels `cell_segmentation` returns never increases when
the threshold is raised. -/
theorem cell_segmentation_threshold_monotone (P : SkimagePrims)
    (image : Grid) (spot_sigma outline_sigma : ℚ) (t t2 : ℚ)
    (h : t2 < t) :
    (∀ v,
      v ∈ posLabelSet
          (threshold_filter (batch_outlines P image spot_sigma outline_sigma)
            image t) →
      v ∈ posLabelSet
          (threshold_filter (batch_outlines P image spot_sigma outline_sigma)
            image t2)) ∧
    numLabels (cell_segmentation P image spot_sigma outline_sigma t) ≤
      numLabels (cell_segmentation P image spot_sigma outline_sigma t2) := by
  constructor
  · exact fun v hv => posLabelSet_threshold_filter_mono (le_of_lt h) hv
  · show numLabels (relabel_sequential _) ≤ numLabels (relabel_sequential _)
    rw [numLabels_relabel_sequential, numLabels_relabel_sequential]
    exact numLabels_threshold_filter_mono (le_of_lt h)

/-- Witness for claim C7 at a concrete input: thresholds 1/2 and 1/50 on a
2 × 2 image. -/
theorem cell_segmentation_threshold_monotone_witness :
    ((1 : ℚ) / 50 < 1 / 2) ∧
    ((∀ v,
      v ∈ posLabelSet
          (threshold_filter (batch_outlines simplePrims imgA 6 3) imgA
            (1 / 2)) →
      v ∈ posLabelSet
          (threshold_filter (batch_outlines simplePrims imgA 6 3) imgA
            (1 / 50))) ∧
    numLabels (cell_segmentation simplePrims imgA 6 3 (1 / 2)) ≤
      numLabels (cell_segmentation simplePrims imgA 6 3 (1 / 50))) :=
  ⟨by norm_num,
    cell_segmentation_threshold_monotone simplePrims imgA 6 3 (1 / 2)
      (1 / 50) (by norm_num)⟩

/-- Claim C8: on every input on which it completes, `cell_segmentation`
returns a label map of exactly the input image's shape. -/
theorem cell_segmentation_shape (P : SkimagePrims) (image : Grid)
    (spot_sigma outline_sigma threshold : ℚ) :
    (cell_segmentation P image spot_sigma outline_sigma threshold).rows =
        image.rows ∧
      (cell_segmentation P image spot_sigma outline_sigma threshold).cols =
        image.cols := by
  constructor
  · show (P.watershed _ _ _).rows = image.rows
    exact (P.watershed_rows _ _ _).trans (P.gaussian_rows _ _)
  · show (P.watershed _ _ _).cols = image.cols
    exact (P.watershed_cols _ _ _).trans (P.gaussian_cols _ _)

/-- Claim C9: every pixel whose raw intensity is not greater than zero ends
up with label 0 in the map `cell_segmentation` returns (the watershed mask
`image > 0` excludes it); in particular an image with no pixel exceeding
the mask condition yields an all-background map. -/
theorem cell_segmentation_mask_background_zero (P : SkimagePrims)
    (image : Grid) (spot_sigma outline_sigma threshold : ℚ) :
    (∀ i j, ¬ 0 < image.pix i j →
      (cell_segmentation P image spot_sigma outline_sigma
        threshold).lab i j = 0) ∧
    ((∀ i j, i < image.rows → j < image.cols → ¬ 0 < image.pix i j) →
      ∀ i j, i < image.rows → j < image.cols →
        (cell_segmentation P image spot_sigma outline_sigma
          threshold).lab i j = 0) := by
  have key : ∀ i j, ¬ 0 < image.pix i j →
      (cell_segmentation P image spot_sigma outline_sigma
        threshold).lab i j = 0 := by
    intro i j hpix
    have hout : (batch_outlines P image spot_sigma outline_sigma).lab i j =
        0 := by
      apply P.watershed_mask
      show decide (0 < image.pix i j) = false
      exact decide_eq_false hpix
    have hF : (threshold_filter
        (batch_outlines P image spot_sigma outline_sigma) image
        threshold).lab i j = 0 := by
      simp only [threshold_filter]
      rw [hout]
      simp
    show (if 0 < (threshold_filter
        (batch_outlines P image spot_sigma outline_sigma) image
        threshold).lab i j then _ else 0) = 0
    rw [hF]
    simp
  exact ⟨key, fun hall i j hi hj => key i j (hall i j hi hj)⟩

/-- Claim C10: `quantify_edge_intensity` depends only on the support of the
positive labels: two label maps of the image's shape whose sets of
positively labelled pixels coincide produce the same result, whatever the
positive values at those pixels are. -/
theorem quantify_support_invariance (image : Grid) (L1 L2 : LMap)
    (hr1 : L1.rows = image.rows) (hc1 : L1.cols = image.cols)
    (hr2 : L2.rows = image.rows) (hc2 : L2.cols = image.cols)
    (hsupp : ∀ p ∈ coordList image.rows image.cols,
      (0 < L1.lab p.1 p.2 ↔ 0 < L2.lab p.1 p.2)) :
    quantify_edge_intensity image L1 = quantify_edge_intensity image L2 := by
  have hsel : edgeSelection image L1 = edgeSelection image L2 := by
    rw [edgeSelection_eq_positive_support image L1 hr1 hc1,
      edgeSelection_eq_positive_support image L2 hr2 hc2]
    apply List.filter_congr
    intro p hp
    rw [decide_eq_decide]
    exact hsupp p hp
  unfold quantify_edge_intensity
  rw [hsel]

/-- Witness for claim C10 at a concrete input: two relabellings of the same
diagonal support (labels 1, 2 against label 7 twice) on a 2 × 2 image. -/
theorem quantify_support_invariance_witness :
    (∀ p ∈ coordList imgA.rows imgA.cols,
      (0 < labB1.lab p.1 p.2 ↔ 0 < labB2.lab p.1 p.2)) ∧
    quantify_edge_intensity imgA labB1 = quantify_edge_intensity imgA labB2 :=
  ⟨by decide,
    quantify_support_invariance imgA labB1 labB2 rfl rfl rfl rfl (by decide)⟩
